import Mathlib

/-!
Verification of the SSA register-allocator pressure/spill analyzer
(`RegAllocSSA.cpp` and its variants).

The analyzer simulates a linear-scan ("chordal") allocation: live intervals
are sorted by start index and scanned once; per register class an active list
is maintained (expire finished intervals, push the current one, record the
pressure, and on overflow count one spill and pop the most recently pushed
interval).  One variant adds an ABI gate on the list of call-crossing
intervals, another adds a fixed-physical-register adjustment to the report.

Program points (`SlotIndex`), class keys and register ids are modelled as
naturals; the per-class state maps are modelled as total functions from class
keys, every class starting from the empty initial state (the C++ lazily
inserts default-constructed entries, which is the same thing).
-/

/-- One live interval of a virtual register: identity, register class key,
and the half-open range `[beginIdx, endIdx)` of program points. -/
structure LiveInterval where
  id : Nat
  rc : Nat
  beginIdx : Nat
  endIdx : Nat
deriving DecidableEq, Repr

/-- `LiveInterval::liveAt(p)` for a single-segment interval:
`beginIdx <= p < endIdx`. -/
def liveAt (iv : LiveInterval) (p : Nat) : Bool :=
  decide (iv.beginIdx ≤ p) && decide (p < iv.endIdx)

/-- Whether the interval is live at any of the call sites
(the loop over `CallSites` using `Current->liveAt(CallIdx)`). -/
def crossesCall (callSites : List Nat) (iv : LiveInterval) : Bool :=
  callSites.any (fun p => liveAt iv p)

/-- The expire phase: `remove_if (Active->endIndex() <= Current->beginIndex())`,
i.e. keep the intervals whose end index is beyond the current begin index. -/
def expireActive (cur : LiveInterval) (l : List LiveInterval) : List LiveInterval :=
  l.filter (fun a => decide (cur.beginIdx < a.endIdx))

/-- Insert an interval in front of the first element with a strictly larger
begin index. -/
def insertByStart (iv : LiveInterval) : List LiveInterval → List LiveInterval
  | [] => [iv]
  | x :: xs => if iv.beginIdx < x.beginIdx then iv :: x :: xs else x :: insertByStart iv xs

/-- The sort of step 2/3: `std::sort` with comparator
`A->beginIndex() < B->beginIndex()`.  `std::sort` guarantees only a
permutation of the input that is sorted for the comparator (it is not
stable, and the relative order of equal-start intervals is unspecified);
this model realises that contract with an insertion sort. -/
def sortIntervals (l : List LiveInterval) : List LiveInterval :=
  l.foldr insertByStart []

/-- The classes touched by at least one collected interval, in first-touch
order (the key set of the lazily filled `ClassStats` map). -/
def touchedClasses (l : List LiveInterval) : List Nat :=
  (l.map (fun iv => iv.rc)).dedup

/-! ### Plain (capacity-only) simulation -/

/-- Per-class state of the capacity-only variants: the active list and the
`RegisterStats` fields the scan mutates. -/
structure PlainClassState where
  active : List LiveInterval
  maxPressure : Nat
  spillCount : Nat
deriving DecidableEq, Repr

def PlainClassState.init : PlainClassState :=
  { active := [], maxPressure := 0, spillCount := 0 }

/-- The list obtained by the expire-then-push_back phase of one admission
step on the active list. -/
def admittedActive (cur : LiveInterval) (active : List LiveInterval) : List LiveInterval :=
  expireActive cur active ++ [cur]

/-- One admission step of the capacity-only simulation for the class of the
current interval: expire, push, record pressure, and on `pressure > cap`
count one spill and pop the back. -/
def stepPlainClass (cap : Nat) (s : PlainClassState) (cur : LiveInterval) : PlainClassState :=
  let act := admittedActive cur s.active
  let pressure := act.length
  let maxP := if pressure > s.maxPressure then pressure else s.maxPressure
  if pressure > cap then
    { active := act.dropLast, maxPressure := maxP, spillCount := s.spillCount + 1 }
  else
    { active := act, maxPressure := maxP, spillCount := s.spillCount }

/-- One step of the full scan: only the entry of the current interval's
register class is touched. -/
def stepPlain (caps : Nat → Nat) (st : Nat → PlainClassState) (cur : LiveInterval) :
    Nat → PlainClassState :=
  fun c => if c = cur.rc then stepPlainClass (caps cur.rc) (st cur.rc) cur else st c

/-- The capacity-only simulation: sort the intervals by start and fold the
admission step over them, starting from empty per-class states.
`caps c` is `TotalPhysRegs` of class `c` (the allocatable-set count). -/
def simulatePlain (caps : Nat → Nat) (intervals : List LiveInterval) :
    Nat → PlainClassState :=
  (sortIntervals intervals).foldl (stepPlain caps) (fun _ => PlainClassState.init)

/-- The report of the plain variant: one `(class, spills, pressure)` record
per touched class. -/
def reportPlain (caps : Nat → Nat) (intervals : List LiveInterval) :
    List (Nat × Nat × Nat) :=
  (touchedClasses intervals).map (fun c =>
    (c, (simulatePlain caps intervals c).spillCount,
        (simulatePlain caps intervals c).maxPressure))

/-! ### ABI-aware simulation (the variant with `ActiveAcrossCalls`) -/

/-- Per-class state of the ABI-aware variant: active list, list of active
call-crossing intervals, and the mutated stats fields. -/
structure AbiClassState where
  active : List LiveInterval
  callList : List LiveInterval
  maxPressure : Nat
  spillCount : Nat
deriving DecidableEq, Repr

def AbiClassState.init : AbiClassState :=
  { active := [], callList := [], maxPressure := 0, spillCount := 0 }

/-- The call-crossing list after the expire-then-conditional-push phase of
one admission step. -/
def admittedCalls (callSites : List Nat) (cur : LiveInterval)
    (callList : List LiveInterval) : List LiveInterval :=
  if crossesCall callSites cur then expireActive cur callList ++ [cur]
  else expireActive cur callList

/-- One admission step of the ABI-aware simulation: expire both lists, push
the current interval (also onto the call list if it crosses a call), record
pressure, then evaluate the ABI gate (`CallList.size() > CalleeSavedLimit`)
and the capacity gate (`pressure > TotalPhysRegs`); on either, count one
spill, pop the active list, and pop the call list if the ABI gate fired and
it is non-empty. -/
def stepAbiClass (cap limit : Nat) (callSites : List Nat)
    (s : AbiClassState) (cur : LiveInterval) : AbiClassState :=
  let act := admittedActive cur s.active
  let cl := admittedCalls callSites cur s.callList
  let pressure := act.length
  let maxP := if pressure > s.maxPressure then pressure else s.maxPressure
  let forcedSpill := decide (cl.length > limit)
  let standardSpill := decide (pressure > cap)
  if forcedSpill || standardSpill then
    { active := act.dropLast,
      callList := if forcedSpill && !cl.isEmpty then cl.dropLast else cl,
      maxPressure := maxP,
      spillCount := s.spillCount + 1 }
  else
    { active := act, callList := cl, maxPressure := maxP, spillCount := s.spillCount }

/-- One step of the full ABI-aware scan, touching only the current class. -/
def stepAbi (caps : Nat → Nat) (limit : Nat) (callSites : List Nat)
    (st : Nat → AbiClassState) (cur : LiveInterval) : Nat → AbiClassState :=
  fun c => if c = cur.rc then stepAbiClass (caps cur.rc) limit callSites (st cur.rc) cur
           else st c

/-- The ABI-aware simulation over a supplied interval list:
sort by start, then fold the ABI admission step.  `limit` is the uniform
`CalleeSavedLimit` (12, or 2 under RV32E). -/
def simulateAbi (caps : Nat → Nat) (limit : Nat) (callSites : List Nat)
    (intervals : List LiveInterval) : Nat → AbiClassState :=
  (sortIntervals intervals).foldl (stepAbi caps limit callSites)
    (fun _ => AbiClassState.init)

/-- The collection filter of the ABI-aware variant's step 2: a virtual
register whose class has an empty allocatable set
(`Allocatable.none()`, i.e. zero capacity) is skipped entirely. -/
def collectAbi (caps : Nat → Nat) (intervals : List LiveInterval) : List LiveInterval :=
  intervals.filter (fun iv => decide (0 < caps iv.rc))

/-- The full ABI-aware pipeline as in the source: filter out classes with no
allocatable registers, simulate, and emit one `(class, spills, pressure)`
record per class touched by a collected interval. -/
def reportAbi (caps : Nat → Nat) (limit : Nat) (callSites : List Nat)
    (intervals : List LiveInterval) : List (Nat × Nat × Nat) :=
  (touchedClasses (collectAbi caps intervals)).map (fun c =>
    (c, (simulateAbi caps limit callSites (collectAbi caps intervals) c).spillCount,
        (simulateAbi caps limit callSites (collectAbi caps intervals) c).maxPressure))

/-! ### True pressure (the quantity the spec compares `maxPressure` to) -/

/-- Number of intervals of the list alive at program point `p`. -/
def aliveCount (l : List LiveInterval) (p : Nat) : Nat :=
  (l.filter (fun iv => liveAt iv p)).length

/-- Maximum of a list of naturals. -/
def natMax (l : List Nat) : Nat := l.foldr max 0

/-- The true maximum pressure of an interval list: the maximum, over all
program points, of the number of intervals alive there.  For half-open
intervals the maximum is attained at some interval's begin index, so it
suffices to fold over those candidate points (`aliveCount_le_truePeak`
below proves the bound for every program point). -/
def truePeak (l : List LiveInterval) : Nat :=
  natMax (l.map (fun iv => aliveCount l iv.beginIdx))

/-- The intervals of class `c` inside an input list. -/
def classIntervals (intervals : List LiveInterval) (c : Nat) : List LiveInterval :=
  intervals.filter (fun iv => decide (iv.rc = c))

/-- The scan of one class in isolation: fold the plain admission step over a
list of intervals (all of one class). -/
def runPlain (cap : Nat) (s : PlainClassState) (l : List LiveInterval) : PlainClassState :=
  l.foldl (stepPlainClass cap) s

/-- The ABI-aware scan of one class in isolation. -/
def runAbi (cap limit : Nat) (callSites : List Nat) (s : AbiClassState)
    (l : List LiveInterval) : AbiClassState :=
  l.foldl (stepAbiClass cap limit callSites) s

/-! ### Fixed-physical-register accounting (the "realistic" variant) -/

/-- `std::set` insertion: add the register unless already present. -/
def insertReg (r : Nat) (l : List Nat) : List Nat :=
  if r ∈ l then l else l ++ [r]

/-- Record one physical-register operand: for every register class that
contains it, insert it into that class's fixed-usage set (the inner loop
over `TRI->regclasses()`; the source inserts into every containing class,
with classes addressed by their index in the class table). -/
def recordFixedReg (classes : List (List Nat)) (r : Nat) (acc : Nat → List Nat) :
    Nat → List Nat :=
  (List.range classes.length).foldl
    (fun acc2 j =>
      if r ∈ classes.getD j [] then
        fun c => if c = j then insertReg r (acc2 j) else acc2 c
      else acc2) acc

/-- Step 1 of the realistic variant: walk the physical-register operands of
the unit's instructions (given as a list of register ids, in program order)
and tally them per containing class, skipping register 0. -/
def fixedUsage (classes : List (List Nat)) (ops : List Nat) : Nat → List Nat :=
  ops.foldl (fun acc r => if r = 0 then acc else recordFixedReg classes r acc)
    (fun _ => [])

/-- Proper-subset test on register sets: `a`'s registers all occur in `b`
but not conversely (the semantic content of `hasSuperClass`/`hasSubClass`).-/
def properSub (a b : List Nat) : Bool :=
  a.all (fun r => decide (r ∈ b)) && !(b.all (fun r => decide (r ∈ a)))

/-- The condition of the report loop
`FixedRC == RC || RC->hasSuperClass(FixedRC) || FixedRC->hasSubClass(RC)`:
the entry's class `j` is the reported class `i` itself, or a proper
superclass of it (both disjuncts of the source express the latter). -/
def relatedClass (classes : List (List Nat)) (i j : Nat) : Bool :=
  decide (j = i) || properSub (classes.getD i []) (classes.getD j [])

/-- `fixedCount` of the report loop: the largest fixed-usage set size among
the related classes (`if (Entry.second.size() > fixedCount) ...`). -/
def fixedCount (classes : List (List Nat)) (ops : List Nat) (i : Nat) : Nat :=
  (List.range classes.length).foldl
    (fun acc j =>
      if relatedClass classes i j && decide (acc < (fixedUsage classes ops j).length)
      then (fixedUsage classes ops j).length else acc) 0

/-- The reported pressure of the realistic variant:
`MaxPressure + fixedCount`, capped at `TotalPhysRegs` when that sum exceeds
it and no spill was counted. -/
def realisticRegs (caps : Nat → Nat) (classes : List (List Nat)) (ops : List Nat)
    (st : Nat → PlainClassState) (i : Nat) : Nat :=
  let r := (st i).maxPressure + fixedCount classes ops i
  if r > caps i ∧ (st i).spillCount = 0 then caps i else r

/-- The realistic variant end to end: plain simulation plus the
fixed-physical-register adjustment, one record per touched class. -/
def reportRealistic (caps : Nat → Nat) (classes : List (List Nat)) (ops : List Nat)
    (intervals : List LiveInterval) : List (Nat × Nat × Nat) :=
  (touchedClasses intervals).map (fun c =>
    (c, (simulatePlain caps intervals c).spillCount,
        realisticRegs caps classes ops (simulatePlain caps intervals) c))

/-- Following the spec's words, for comparison with the source: class `j` is
the most specific class containing register `r` when it contains `r` and no
other class containing `r` has a properly smaller register set. -/
def isMostSpecific (classes : List (List Nat)) (r j : Nat) : Bool :=
  decide (r ∈ classes.getD j []) &&
  (List.range classes.length).all (fun k =>
    decide (k = j) || !decide (r ∈ classes.getD k []) ||
    !properSub (classes.getD k []) (classes.getD j []))

/-- Following the spec's words, for comparison with the source: the usages
attributed to class `j` when each observed physical-register usage is
attributed to the most specific class containing it. -/
def fixedUsageSpec (classes : List (List Nat)) (ops : List Nat) (j : Nat) : List Nat :=
  (ops.filter (fun r => !decide (r = 0) && isMostSpecific classes r j)).dedup

/-- Following the spec's words, for comparison with the source: reported
pressure with most-specific attribution — `maxPressure` plus the class's own
attributed fixed-register count, clamped to capacity when no spill. -/
def realisticRegsSpec (caps : Nat → Nat) (classes : List (List Nat)) (ops : List Nat)
    (st : Nat → PlainClassState) (i : Nat) : Nat :=
  let r := (st i).maxPressure + (fixedUsageSpec classes ops i).length
  if r > caps i ∧ (st i).spillCount = 0 then caps i else r

/-! ## Lemmas about the ordering stage -/

theorem insertByStart_perm (iv : LiveInterval) (l : List LiveInterval) :
    (insertByStart iv l).Perm (iv :: l) := by
  induction l with
  | nil => exact List.Perm.refl _
  | cons x xs ih =>
    simp only [insertByStart]
    split
    · exact List.Perm.refl _
    · exact (ih.cons x).trans (List.Perm.swap iv x xs)

theorem sortIntervals_perm (l : List LiveInterval) : (sortIntervals l).Perm l := by
  induction l with
  | nil => exact List.Perm.refl _
  | cons x xs ih =>
    simp only [sortIntervals, List.foldr_cons]
    exact (insertByStart_perm x _).trans (ih.cons x)

theorem insertByStart_sorted (iv : LiveInterval) (l : List LiveInterval)
    (h : l.Pairwise (fun a b => a.beginIdx ≤ b.beginIdx)) :
    (insertByStart iv l).Pairwise (fun a b => a.beginIdx ≤ b.beginIdx) := by
  induction l with
  | nil => simp [insertByStart]
  | cons x xs ih =>
    rcases List.pairwise_cons.mp h with ⟨hx, hxs⟩
    simp only [insertByStart]
    split
    case isTrue h1 =>
      refine List.pairwise_cons.mpr ⟨?_, h⟩
      intro b hb
      rcases List.mem_cons.mp hb with hb | hb
      · exact hb ▸ Nat.le_of_lt h1
      · exact Nat.le_trans (Nat.le_of_lt h1) (hx b hb)
    case isFalse h1 =>
      refine List.pairwise_cons.mpr ⟨?_, ih hxs⟩
      intro b hb
      rcases List.mem_cons.mp ((insertByStart_perm iv xs).mem_iff.mp hb) with hb | hb
      · exact hb ▸ Nat.le_of_not_lt h1
      · exact hx b hb

theorem sortIntervals_sorted (l : List LiveInterval) :
    (sortIntervals l).Pairwise (fun a b => a.beginIdx ≤ b.beginIdx) := by
  induction l with
  | nil => simp [sortIntervals]
  | cons x xs ih =>
    simp only [sortIntervals, List.foldr_cons]
    exact insertByStart_sorted x _ ih

/-! ## Projection of the full scan onto one class -/

theorem foldl_stepPlain_proj (caps : Nat → Nat) (c : Nat) (l : List LiveInterval) :
    ∀ st : Nat → PlainClassState,
      l.foldl (stepPlain caps) st c =
        runPlain (caps c) (st c) (l.filter (fun iv => decide (iv.rc = c))) := by
  induction l with
  | nil => intro st; rfl
  | cons iv t ih =>
    intro st
    simp only [List.foldl_cons]
    by_cases h : iv.rc = c
    · have hstep : stepPlain caps st iv c = stepPlainClass (caps c) (st c) iv := by
        simp [stepPlain, h]
      rw [ih, hstep, List.filter_cons_of_pos (by simp [h])]
      rfl
    · have hne : ¬(c = iv.rc) := fun hc => h hc.symm
      have hstep : stepPlain caps st iv c = st c := by
        simp [stepPlain, hne]
      rw [ih, hstep, List.filter_cons_of_neg (by simp [h])]

theorem simulatePlain_proj (caps : Nat → Nat) (intervals : List LiveInterval) (c : Nat) :
    simulatePlain caps intervals c =
      runPlain (caps c) PlainClassState.init
        (classIntervals (sortIntervals intervals) c) := by
  simp only [simulatePlain, classIntervals]
  exact foldl_stepPlain_proj caps c (sortIntervals intervals) _

theorem foldl_stepAbi_proj (caps : Nat → Nat) (limit : Nat) (callSites : List Nat)
    (c : Nat) (l : List LiveInterval) :
    ∀ st : Nat → AbiClassState,
      l.foldl (stepAbi caps limit callSites) st c =
        runAbi (caps c) limit callSites (st c)
          (l.filter (fun iv => decide (iv.rc = c))) := by
  induction l with
  | nil => intro st; rfl
  | cons iv t ih =>
    intro st
    simp only [List.foldl_cons]
    by_cases h : iv.rc = c
    · have hstep : stepAbi caps limit callSites st iv c =
          stepAbiClass (caps c) limit callSites (st c) iv := by
        simp [stepAbi, h]
      rw [ih, hstep, List.filter_cons_of_pos (by simp [h])]
      rfl
    · have hne : ¬(c = iv.rc) := fun hc => h hc.symm
      have hstep : stepAbi caps limit callSites st iv c = st c := by
        simp [stepAbi, hne]
      rw [ih, hstep, List.filter_cons_of_neg (by simp [h])]

theorem simulateAbi_proj (caps : Nat → Nat) (limit : Nat) (callSites : List Nat)
    (intervals : List LiveInterval) (c : Nat) :
    simulateAbi caps limit callSites intervals c =
      runAbi (caps c) limit callSites AbiClassState.init
        (classIntervals (sortIntervals intervals) c) := by
  simp only [simulateAbi, classIntervals]
  exact foldl_stepAbi_proj caps limit callSites c (sortIntervals intervals) _

/-! ## One-step facts -/

theorem isEmpty_eq_false_of_length_pos {l : List LiveInterval} (h : 0 < l.length) :
    l.isEmpty = false := by
  cases l with
  | nil => simp at h
  | cons a t => rfl

theorem stepPlainClass_active_subset (cap : Nat) (s : PlainClassState) (cur : LiveInterval) :
    (stepPlainClass cap s cur).active ⊆ admittedActive cur s.active := by
  unfold stepPlainClass
  dsimp only
  split
  · exact (List.dropLast_sublist _).subset
  · exact fun x hx => hx

theorem stepPlainClass_spillCount_le (cap : Nat) (s : PlainClassState) (cur : LiveInterval) :
    s.spillCount ≤ (stepPlainClass cap s cur).spillCount := by
  unfold stepPlainClass
  dsimp only
  split
  · exact Nat.le_succ _
  · exact Nat.le_refl _

theorem stepPlainClass_maxPressure_le (cap : Nat) (s : PlainClassState) (cur : LiveInterval) :
    s.maxPressure ≤ (stepPlainClass cap s cur).maxPressure := by
  unfold stepPlainClass
  dsimp only
  split <;> dsimp only <;> split <;> omega

theorem stepPlainClass_maxPressure_ge (cap : Nat) (s : PlainClassState) (cur : LiveInterval) :
    (admittedActive cur s.active).length ≤ (stepPlainClass cap s cur).maxPressure := by
  unfold stepPlainClass
  dsimp only
  split <;> dsimp only <;> split <;> omega

theorem runPlain_cons (cap : Nat) (s : PlainClassState) (cur : LiveInterval)
    (t : List LiveInterval) :
    runPlain cap s (cur :: t) = runPlain cap (stepPlainClass cap s cur) t := rfl

theorem runPlain_spillCount_le (cap : Nat) :
    ∀ (l : List LiveInterval) (s : PlainClassState),
      s.spillCount ≤ (runPlain cap s l).spillCount := by
  intro l
  induction l with
  | nil => intro s; exact Nat.le_refl _
  | cons cur t ih =>
    intro s
    exact Nat.le_trans (stepPlainClass_spillCount_le cap s cur) (ih _)

theorem runPlain_maxPressure_le (cap : Nat) :
    ∀ (l : List LiveInterval) (s : PlainClassState),
      s.maxPressure ≤ (runPlain cap s l).maxPressure := by
  intro l
  induction l with
  | nil => intro s; exact Nat.le_refl _
  | cons cur t ih =>
    intro s
    exact Nat.le_trans (stepPlainClass_maxPressure_le cap s cur) (ih _)

/-! ## Claim C2 -/

/-- C2: at every admission step of the ABI-aware simulation, the ABI gate
(`|activeCrossingCalls| > abiLimit`) and the capacity gate
(`|active| > capacity`) are each alone sufficient to record a spill; when
both trigger at the same step exactly one spill is recorded (the per-step
counter rises by exactly one); eviction removes exactly one interval from
the active list, plus exactly one from the call-crossing list when the ABI
gate triggered (that list is then necessarily non-empty); when the ABI gate
did not trigger the call-crossing list is left as admitted. -/
theorem claim_C2_spill_gates (cap limit : Nat) (callSites : List Nat)
    (s : AbiClassState) (cur : LiveInterval)
    (h : limit < (admittedCalls callSites cur s.callList).length ∨
         cap < (admittedActive cur s.active).length) :
    (stepAbiClass cap limit callSites s cur).spillCount = s.spillCount + 1 ∧
    (stepAbiClass cap limit callSites s cur).active.length + 1 =
      (admittedActive cur s.active).length ∧
    (limit < (admittedCalls callSites cur s.callList).length →
      admittedCalls callSites cur s.callList ≠ [] ∧
      (stepAbiClass cap limit callSites s cur).callList.length + 1 =
        (admittedCalls callSites cur s.callList).length) ∧
    ((admittedCalls callSites cur s.callList).length ≤ limit →
      (stepAbiClass cap limit callSites s cur).callList =
        admittedCalls callSites cur s.callList) := by
  have hact : (admittedActive cur s.active).length ≠ 0 := by
    simp [admittedActive]
  by_cases hf : limit < (admittedCalls callSites cur s.callList).length
  · have hcl : (admittedCalls callSites cur s.callList).isEmpty = false :=
      isEmpty_eq_false_of_length_pos (by omega)
    refine ⟨?_, ?_, ?_, ?_⟩
    · simp [stepAbiClass, hf]
    · simp only [stepAbiClass]
      simp only [decide_eq_true hf, Bool.true_or, if_true]
      simp only [List.length_dropLast]
      omega
    · intro _
      constructor
      · intro hnil
        rw [hnil] at hf
        simp at hf
      · simp only [stepAbiClass]
        simp only [decide_eq_true hf, Bool.true_or, if_true, hcl]
        simp only [Bool.not_false, Bool.and_true, decide_eq_true hf, if_true,
          List.length_dropLast]
        omega
    · intro hle
      omega
  · rcases h with h | hs
    · exact absurd h hf
    · have hfd : decide (limit < (admittedCalls callSites cur s.callList).length) = false :=
        decide_eq_false hf
      refine ⟨?_, ?_, ?_, ?_⟩
      · simp [stepAbiClass, hfd, hs]
      · simp only [stepAbiClass]
        simp only [hfd, Bool.false_or, decide_eq_true hs, if_true,
          List.length_dropLast]
        omega
      · intro hf2; exact absurd hf2 hf
      · intro _
        simp [stepAbiClass, hfd, hs]

/-- Witness for C2: a concrete step (capacity 0, abiLimit 0, a call at point
0, one call-crossing interval) where both gates trigger and exactly one
spill is recorded. -/
theorem claim_C2_witness :
    (stepAbiClass 0 0 [0] AbiClassState.init ⟨0, 0, 0, 1⟩).spillCount =
      AbiClassState.init.spillCount + 1 :=
  (claim_C2_spill_gates 0 0 [0] AbiClassState.init ⟨0, 0, 0, 1⟩ (Or.inl (by decide))).1

/-! ## Claim C6 -/

/-- C6: whenever a spill is recorded at an admission step, eviction is a
LIFO pop from the tail of the relevant list: the active list loses exactly
its last element, which is the interval admitted at that very step (and
likewise the call-crossing list is popped at its tail when the ABI gate
triggered; when the current interval crosses a call, that tail is again the
interval admitted at this step).  The same holds for the capacity-only
variant's step. -/
theorem claim_C6_lifo_eviction (cap limit : Nat) (callSites : List Nat)
    (s : AbiClassState) (p : PlainClassState) (cur : LiveInterval) :
    (limit < (admittedCalls callSites cur s.callList).length ∨
        cap < (admittedActive cur s.active).length →
      (stepAbiClass cap limit callSites s cur).active =
          (admittedActive cur s.active).dropLast ∧
        (admittedActive cur s.active).getLast? = some cur ∧
        (limit < (admittedCalls callSites cur s.callList).length →
          (stepAbiClass cap limit callSites s cur).callList =
            (admittedCalls callSites cur s.callList).dropLast) ∧
        (crossesCall callSites cur = true →
          (admittedCalls callSites cur s.callList).getLast? = some cur)) ∧
    (cap < (admittedActive cur p.active).length →
      (stepPlainClass cap p cur).active = (admittedActive cur p.active).dropLast ∧
        (admittedActive cur p.active).getLast? = some cur) := by
  constructor
  · intro h
    refine ⟨?_, ?_, ?_, ?_⟩
    · rcases h with hf | hs
      · simp [stepAbiClass, hf]
      · have : (decide (limit < (admittedCalls callSites cur s.callList).length) ||
            decide (cap < (admittedActive cur s.active).length)) = true := by
          simp [hs]
        simp [stepAbiClass, this]
    · exact List.getLast?_concat _
    · intro hf
      have hcl : (admittedCalls callSites cur s.callList).isEmpty = false :=
        isEmpty_eq_false_of_length_pos (by omega)
      simp [stepAbiClass, hf, hcl]
    · intro hcross
      simp only [admittedCalls, hcross, if_true]
      exact List.getLast?_concat _
  · intro hs
    refine ⟨?_, List.getLast?_concat _⟩
    simp [stepPlainClass, hs]

/-- Witness for C6: at a concrete overflowing step both variants evict
exactly the just-admitted (tail) interval. -/
theorem claim_C6_witness :
    (stepAbiClass 0 0 [0] AbiClassState.init ⟨0, 0, 0, 1⟩).active =
        (admittedActive ⟨0, 0, 0, 1⟩ AbiClassState.init.active).dropLast ∧
    (stepPlainClass 0 PlainClassState.init ⟨0, 0, 0, 1⟩).active =
        (admittedActive ⟨0, 0, 0, 1⟩ PlainClassState.init.active).dropLast :=
  ⟨((claim_C6_lifo_eviction 0 0 [0] AbiClassState.init PlainClassState.init
      ⟨0, 0, 0, 1⟩).1 (Or.inr (by decide))).1,
   ((claim_C6_lifo_eviction 0 0 [0] AbiClassState.init PlainClassState.init
      ⟨0, 0, 0, 1⟩).2 (by decide)).1⟩

/-! ## Claim C5 -/

/-- C5 counterexample: a single interval with `start = end` (at capacity 0,
and at capacity 3) is pushed at its own admission step, so it raises
`maxPressure` to 1 and, against capacity 0, triggers a spill by itself —
although it is alive at no program point at all.  This falsifies the claim
that such an interval never occupies a slot and contributes zero to the
measured pressure. -/
theorem claim_C5_counterexample :
    (simulatePlain (fun _ => 0) [⟨0, 0, 5, 5⟩] 0).maxPressure = 1 ∧
    (simulatePlain (fun _ => 0) [⟨0, 0, 5, 5⟩] 0).spillCount = 1 ∧
    (simulatePlain (fun _ => 3) [⟨0, 0, 5, 5⟩] 0).maxPressure = 1 ∧
    aliveCount [⟨0, 0, 5, 5⟩] 5 = 0 ∧
    truePeak [⟨0, 0, 5, 5⟩] = 0 := by decide

/-- C5 (amended): an interval with `start = end` occupies a slot only at its
own admission step (where it is pushed like any other interval, counts 1 in
the recorded pressure, and can itself trigger a spill); at any admission
step of an interval starting no earlier, it never survives in the active
list unless it is the admitted interval itself. -/
theorem claim_C5_amended (cap : Nat) (s : PlainClassState) (cur E : LiveInterval)
    (hE : E.beginIdx = E.endIdx) (hle : E.beginIdx ≤ cur.beginIdx)
    (hmem : E ∈ (stepPlainClass cap s cur).active) : E = cur := by
  have h2 := stepPlainClass_active_subset cap s cur hmem
  simp only [admittedActive] at h2
  rcases List.mem_append.mp h2 with h3 | h3
  · have h4 := (List.mem_filter.mp h3).2
    have h5 : cur.beginIdx < E.endIdx := by
      simpa [expireActive] using of_decide_eq_true h4
    exfalso
    omega
  · simpa using h3

/-- Witness for C5 (amended) at a concrete admission step: the empty
interval admitted at its own step is in the active list and is the admitted
interval. -/
theorem claim_C5_witness : (⟨0, 0, 5, 5⟩ : LiveInterval) = ⟨0, 0, 5, 5⟩ :=
  claim_C5_amended 1 PlainClassState.init ⟨0, 0, 5, 5⟩ ⟨0, 0, 5, 5⟩
    (by decide) (by decide) (by decide)

/-! ## Claim C1 (counterexample) -/

/-- C1 counterexample: three nested intervals `[0,10) [1,10) [2,10)` of one
class with capacity 1.  At the second admission the overflow evicts `[1,10)`
although it stays alive, so at point 2 three intervals are truly alive while
the simulator records a maximum pressure of only 2: the simulator does
under-report the pressure peak because of an earlier eviction. -/
theorem claim_C1_counterexample :
    (simulatePlain (fun _ => 1) [⟨0, 0, 0, 10⟩, ⟨1, 0, 1, 10⟩, ⟨2, 0, 2, 10⟩] 0).maxPressure
        = 2 ∧
    aliveCount (classIntervals [⟨0, 0, 0, 10⟩, ⟨1, 0, 1, 10⟩, ⟨2, 0, 2, 10⟩] 0) 2 = 3 ∧
    truePeak (classIntervals [⟨0, 0, 0, 10⟩, ⟨1, 0, 1, 10⟩, ⟨2, 0, 2, 10⟩] 0) = 3 := by
  decide

/-! ## Claim C3 -/

/-- C3 counterexample: capacity 1, abiLimit 12, one call site at 5, and two
call-crossing intervals `[0,10)`, `[1,10)`.  Admitting the second triggers a
capacity-gate-only spill: the second interval is popped from `active` but
remains in `activeCrossingCalls`, so the call-crossing list is not a
subsequence (not even a subset) of the active list. -/
theorem claim_C3_counterexample :
    (⟨1, 0, 1, 10⟩ : LiveInterval) ∈
        (simulateAbi (fun _ => 1) 12 [5] [⟨0, 0, 0, 10⟩, ⟨1, 0, 1, 10⟩] 0).callList ∧
    (⟨1, 0, 1, 10⟩ : LiveInterval) ∉
        (simulateAbi (fun _ => 1) 12 [5] [⟨0, 0, 0, 10⟩, ⟨1, 0, 1, 10⟩] 0).active ∧
    crossesCall [5] ⟨1, 0, 1, 10⟩ = true := by decide

/-! ## Claim C9 (counterexample) -/

/-- C9 counterexample: one interval of a class with zero allocatable
registers.  The ABI-aware variant filters the class out during collection:
nothing is admitted and no statistics record is produced for it — while the
plain variant does admit the interval, records one spill (and pressure 1)
and emits a record.  This falsifies "a statistics record for that class is
still produced" for the ABI-aware pipeline. -/
theorem claim_C9_counterexample :
    reportAbi (fun _ => 0) 12 [] [⟨0, 0, 0, 10⟩] = [] ∧
    reportPlain (fun _ => 0) [⟨0, 0, 0, 10⟩] = [(0, 1, 1)] := by decide

/-! ## Claim C8 (counterexample) -/

/-- C8 counterexample: classes `0 = {1,2}` and `1 = {1,2,3,4}`, one
instruction operand using physical register 1, one virtual interval of class
1 against capacity 0 (so a spill is recorded and no clamping applies).  The
most specific class containing register 1 is class 0, yet the code also
attributes the usage to class 1, reporting pressure 2 for class 1 where
most-specific attribution (the spec's words) yields 1. -/
theorem claim_C8_counterexample :
    realisticRegs (fun c => if c = 1 then 0 else 2) [[1, 2], [1, 2, 3, 4]] [1]
        (simulatePlain (fun c => if c = 1 then 0 else 2) [⟨0, 1, 0, 5⟩]) 1 = 2 ∧
    realisticRegsSpec (fun c => if c = 1 then 0 else 2) [[1, 2], [1, 2, 3, 4]] [1]
        (simulatePlain (fun c => if c = 1 then 0 else 2) [⟨0, 1, 0, 5⟩]) 1 = 1 ∧
    1 ∈ fixedUsage [[1, 2], [1, 2, 3, 4]] [1] 1 ∧
    isMostSpecific [[1, 2], [1, 2, 3, 4]] 1 1 = false ∧
    isMostSpecific [[1, 2], [1, 2, 3, 4]] 1 0 = true := by decide

/-! ## Claim C3 (amended) -/

theorem stepAbiClass_callList_subset (cap limit : Nat) (callSites : List Nat)
    (s : AbiClassState) (cur : LiveInterval) :
    (stepAbiClass cap limit callSites s cur).callList ⊆
      admittedCalls callSites cur s.callList := by
  unfold stepAbiClass
  dsimp only
  split
  · dsimp only
    split
    · exact (List.dropLast_sublist _).subset
    · exact fun x hx => hx
  · exact fun x hx => hx

theorem mem_admittedCalls (callSites : List Nat) (cur : LiveInterval)
    (cl : List LiveInterval) (x : LiveInterval)
    (hx : x ∈ admittedCalls callSites cur cl) :
    x ∈ cl ∨ (x = cur ∧ crossesCall callSites cur = true) := by
  unfold admittedCalls at hx
  split at hx
  case isTrue hc =>
    rcases List.mem_append.mp hx with h | h
    · exact Or.inl ((List.mem_filter.mp h).1)
    · exact Or.inr ⟨by simpa using h, hc⟩
  case isFalse hc =>
    exact Or.inl ((List.mem_filter.mp hx).1)

theorem foldAbi_callList_crosses (caps : Nat → Nat) (limit : Nat) (callSites : List Nat) :
    ∀ (l : List LiveInterval) (st : Nat → AbiClassState),
      (∀ c x, x ∈ (st c).callList → crossesCall callSites x = true) →
      ∀ c x, x ∈ ((l.foldl (stepAbi caps limit callSites) st) c).callList →
        crossesCall callSites x = true := by
  intro l
  induction l with
  | nil => intro st h; exact h
  | cons cur t ih =>
    intro st h
    refine ih _ ?_
    intro c x hx
    by_cases hc : c = cur.rc
    · have hx' : x ∈ (stepAbiClass (caps cur.rc) limit callSites (st cur.rc) cur).callList := by
        simpa [stepAbi, hc] using hx
      rcases mem_admittedCalls callSites cur (st cur.rc).callList x
          (stepAbiClass_callList_subset _ _ _ _ _ hx') with h1 | ⟨rfl, h2⟩
      · exact h _ _ h1
      · exact h2
    · have hx' : x ∈ (st c).callList := by
        simpa [stepAbi, hc] using hx
      exact h _ _ hx'

/-- C3 (amended): in every state reachable by the ABI-aware simulation,
every member of `activeCrossingCalls` has `crossesCall = true`.  The
subsequence half of the claim is false (see the counterexample): a
capacity-gate-only spill of a call-crossing interval pops the interval from
`active` but leaves it in `activeCrossingCalls`. -/
theorem claim_C3_amended (caps : Nat → Nat) (limit : Nat) (callSites : List Nat)
    (intervals : List LiveInterval) (c : Nat) (x : LiveInterval)
    (hx : x ∈ (simulateAbi caps limit callSites intervals c).callList) :
    crossesCall callSites x = true := by
  refine foldAbi_callList_crosses caps limit callSites (sortIntervals intervals)
    (fun _ => AbiClassState.init) ?_ c x hx
  intro c y hy
  simp [AbiClassState.init] at hy

/-- Witness for C3 (amended): a call-crossing member of a reachable
non-empty `activeCrossingCalls`. -/
theorem claim_C3_witness : crossesCall [5] (⟨0, 0, 0, 10⟩ : LiveInterval) = true :=
  claim_C3_amended (fun _ => 1) 12 [5] [⟨0, 0, 0, 10⟩, ⟨1, 0, 1, 10⟩] 0
    ⟨0, 0, 0, 10⟩ (by decide)

/-! ## Claim C10 -/

theorem admittedActive_length_le (cur : LiveInterval) (active : List LiveInterval) :
    (admittedActive cur active).length ≤ active.length + 1 := by
  have := List.length_filter_le (fun a => decide (cur.beginIdx < a.endIdx)) active
  simp only [admittedActive, expireActive, List.length_append, List.length_cons,
    List.length_nil]
  omega

theorem admittedCalls_length_le (callSites : List Nat) (cur : LiveInterval)
    (cl : List LiveInterval) :
    (admittedCalls callSites cur cl).length ≤ cl.length + 1 := by
  have := List.length_filter_le (fun a => decide (cur.beginIdx < a.endIdx)) cl
  unfold admittedCalls
  split <;> simp only [expireActive, List.length_append, List.length_cons,
    List.length_nil] <;> omega

theorem stepPlainClass_inv (cap : Nat) (s : PlainClassState) (cur : LiveInterval)
    (h1 : s.active.length ≤ cap) (h2 : s.maxPressure ≤ cap + 1) :
    (stepPlainClass cap s cur).active.length ≤ cap ∧
      (stepPlainClass cap s cur).maxPressure ≤ cap + 1 := by
  have hact : (admittedActive cur s.active).length ≤ cap + 1 :=
    Nat.le_trans (admittedActive_length_le cur s.active) (by omega)
  unfold stepPlainClass
  dsimp only
  split
  case isTrue hp =>
    refine ⟨?_, ?_⟩
    · dsimp only
      simp only [List.length_dropLast]
      omega
    · dsimp only
      split <;> omega
  case isFalse hp =>
    refine ⟨?_, ?_⟩
    · dsimp only
      omega
    · dsimp only
      split <;> omega

theorem stepAbiClass_inv (cap limit : Nat) (callSites : List Nat)
    (s : AbiClassState) (cur : LiveInterval)
    (h1 : s.active.length ≤ cap) (h2 : s.maxPressure ≤ cap + 1) :
    (stepAbiClass cap limit callSites s cur).active.length ≤ cap ∧
      (stepAbiClass cap limit callSites s cur).maxPressure ≤ cap + 1 := by
  have hact : (admittedActive cur s.active).length ≤ cap + 1 :=
    Nat.le_trans (admittedActive_length_le cur s.active) (by omega)
  unfold stepAbiClass
  dsimp only
  split
  case isTrue hp =>
    refine ⟨?_, ?_⟩
    · dsimp only
      simp only [List.length_dropLast]
      omega
    · dsimp only
      split <;> omega
  case isFalse hp =>
    have hp' : ¬((admittedActive cur s.active).length > cap) := by
      intro hgt
      simp [decide_eq_true hgt] at hp
    refine ⟨?_, ?_⟩
    · dsimp only
      omega
    · dsimp only
      split <;> omega

theorem foldPlain_bounds (caps : Nat → Nat) :
    ∀ (l : List LiveInterval) (st : Nat → PlainClassState),
      (∀ c, (st c).active.length ≤ caps c ∧ (st c).maxPressure ≤ caps c + 1) →
      ∀ c, ((l.foldl (stepPlain caps) st) c).active.length ≤ caps c ∧
        ((l.foldl (stepPlain caps) st) c).maxPressure ≤ caps c + 1 := by
  intro l
  induction l with
  | nil => intro st h; exact h
  | cons cur t ih =>
    intro st h
    refine ih _ ?_
    intro c
    by_cases hc : c = cur.rc
    · subst hc
      have := stepPlainClass_inv (caps cur.rc) (st cur.rc) cur (h cur.rc).1 (h cur.rc).2
      simpa [stepPlain] using this
    · simpa [stepPlain, hc] using h c

theorem foldAbi_bounds (caps : Nat → Nat) (limit : Nat) (callSites : List Nat) :
    ∀ (l : List LiveInterval) (st : Nat → AbiClassState),
      (∀ c, (st c).active.length ≤ caps c ∧ (st c).maxPressure ≤ caps c + 1) →
      ∀ c, ((l.foldl (stepAbi caps limit callSites) st) c).active.length ≤ caps c ∧
        ((l.foldl (stepAbi caps limit callSites) st) c).maxPressure ≤ caps c + 1 := by
  intro l
  induction l with
  | nil => intro st h; exact h
  | cons cur t ih =>
    intro st h
    refine ih _ ?_
    intro c
    by_cases hc : c = cur.rc
    · subst hc
      have := stepAbiClass_inv (caps cur.rc) limit callSites (st cur.rc) cur
        (h cur.rc).1 (h cur.rc).2
      simpa [stepAbi] using this
    · simpa [stepAbi, hc] using h c

/-- C10: after every admission step (equivalently, after any prefix of the
sorted scan) the active list of every class has at most `capacity` members —
eviction restores the bound whenever admission exceeds it — and therefore
the recorded `maxPressure` never exceeds `capacity + 1`; this holds for the
capacity-only and for the ABI-aware simulation, and in particular for their
final states. -/
theorem claim_C10_capacity_bound (caps : Nat → Nat) (limit : Nat)
    (callSites : List Nat) (intervals : List LiveInterval) (c n : Nat) :
    ((((sortIntervals intervals).take n).foldl (stepPlain caps)
        (fun _ => PlainClassState.init)) c).active.length ≤ caps c ∧
    ((((sortIntervals intervals).take n).foldl (stepPlain caps)
        (fun _ => PlainClassState.init)) c).maxPressure ≤ caps c + 1 ∧
    ((((sortIntervals intervals).take n).foldl (stepAbi caps limit callSites)
        (fun _ => AbiClassState.init)) c).active.length ≤ caps c ∧
    ((((sortIntervals intervals).take n).foldl (stepAbi caps limit callSites)
        (fun _ => AbiClassState.init)) c).maxPressure ≤ caps c + 1 ∧
    (simulatePlain caps intervals c).active.length ≤ caps c ∧
    (simulatePlain caps intervals c).maxPressure ≤ caps c + 1 ∧
    (simulateAbi caps limit callSites intervals c).active.length ≤ caps c ∧
    (simulateAbi caps limit callSites intervals c).maxPressure ≤ caps c + 1 := by
  have hinitP : ∀ d, ((fun _ => PlainClassState.init) d : PlainClassState).active.length
      ≤ caps d ∧ ((fun _ => PlainClassState.init) d : PlainClassState).maxPressure
      ≤ caps d + 1 := by
    intro d
    simp [PlainClassState.init]
  have hinitA : ∀ d, ((fun _ => AbiClassState.init) d : AbiClassState).active.length
      ≤ caps d ∧ ((fun _ => AbiClassState.init) d : AbiClassState).maxPressure
      ≤ caps d + 1 := by
    intro d
    simp [AbiClassState.init]
  have h1 := foldPlain_bounds caps ((sortIntervals intervals).take n) _ hinitP c
  have h2 := foldAbi_bounds caps limit callSites ((sortIntervals intervals).take n) _ hinitA c
  have h3 := foldPlain_bounds caps (sortIntervals intervals) _ hinitP c
  have h4 := foldAbi_bounds caps limit callSites (sortIntervals intervals) _ hinitA c
  exact ⟨h1.1, h1.2, h2.1, h2.2, h3.1, h3.2, h4.1, h4.2⟩

/-! ## Claim C7 -/

theorem stepPlain_apply_self (caps : Nat → Nat) (st : Nat → PlainClassState)
    (cur : LiveInterval) :
    stepPlain caps st cur cur.rc = stepPlainClass (caps cur.rc) (st cur.rc) cur := by
  simp [stepPlain]

theorem stepAbi_apply_self (caps : Nat → Nat) (limit : Nat) (callSites : List Nat)
    (st : Nat → AbiClassState) (cur : LiveInterval) :
    stepAbi caps limit callSites st cur cur.rc =
      stepAbiClass (caps cur.rc) limit callSites (st cur.rc) cur := by
  simp [stepAbi]

theorem stepAbiPlain_agree (cap limit : Nat) (callSites : List Nat)
    (sA : AbiClassState) (sP : PlainClassState) (cur : LiveInterval)
    (ha : sA.active = sP.active) (hm : sA.maxPressure = sP.maxPressure)
    (hs : sA.spillCount = sP.spillCount)
    (hcl : (admittedCalls callSites cur sA.callList).length ≤ limit) :
    (stepAbiClass cap limit callSites sA cur).active = (stepPlainClass cap sP cur).active ∧
    (stepAbiClass cap limit callSites sA cur).maxPressure =
      (stepPlainClass cap sP cur).maxPressure ∧
    (stepAbiClass cap limit callSites sA cur).spillCount =
      (stepPlainClass cap sP cur).spillCount ∧
    (stepAbiClass cap limit callSites sA cur).callList.length ≤ sA.callList.length + 1 := by
  have hlen := admittedCalls_length_le callSites cur sA.callList
  have hforced :
      decide ((admittedCalls callSites cur sA.callList).length > limit) = false := by
    simp only [decide_eq_false_iff_not]
    omega
  unfold stepAbiClass stepPlainClass
  dsimp only
  rw [ha, hm, hs, hforced]
  simp only [Bool.false_or, Bool.false_and, if_false, decide_eq_true_eq]
  by_cases hgt : (admittedActive cur sP.active).length > cap
  · simp only [if_pos hgt]
    exact ⟨by trivial, by trivial, by trivial, hlen⟩
  · simp only [if_neg hgt]
    exact ⟨by trivial, by trivial, by trivial, hlen⟩

theorem foldAbiPlain_agree (caps : Nat → Nat) (limit : Nat) (callSites : List Nat) :
    ∀ (l : List LiveInterval) (stA : Nat → AbiClassState) (stP : Nat → PlainClassState),
      (∀ c, (stA c).active = (stP c).active ∧
            (stA c).maxPressure = (stP c).maxPressure ∧
            (stA c).spillCount = (stP c).spillCount ∧
            (stA c).callList.length + l.length ≤ limit) →
      ∀ c, ((l.foldl (stepAbi caps limit callSites) stA) c).active =
              ((l.foldl (stepPlain caps) stP) c).active ∧
           ((l.foldl (stepAbi caps limit callSites) stA) c).maxPressure =
              ((l.foldl (stepPlain caps) stP) c).maxPressure ∧
           ((l.foldl (stepAbi caps limit callSites) stA) c).spillCount =
              ((l.foldl (stepPlain caps) stP) c).spillCount := by
  intro l
  induction l with
  | nil => intro stA stP h c; exact ⟨(h c).1, (h c).2.1, (h c).2.2.1⟩
  | cons cur t ih =>
    intro stA stP h c
    refine ih _ _ ?_ c
    intro d
    by_cases hd : d = cur.rc
    · subst hd
      obtain ⟨ha, hm, hs, hl⟩ := h cur.rc
      have hcl : (admittedCalls callSites cur (stA cur.rc).callList).length ≤ limit := by
        have := admittedCalls_length_le callSites cur (stA cur.rc).callList
        simp only [List.length_cons] at hl
        omega
      have hstep := stepAbiPlain_agree (caps cur.rc) limit callSites
        (stA cur.rc) (stP cur.rc) cur ha hm hs hcl
      refine ⟨?_, ?_, ?_, ?_⟩
      · simpa [stepAbi, stepPlain] using hstep.1
      · simpa [stepAbi, stepPlain] using hstep.2.1
      · simpa [stepAbi, stepPlain] using hstep.2.2.1
      · have h4 := hstep.2.2.2
        simp only [List.length_cons] at hl
        rw [stepAbi_apply_self]
        omega
    · refine ⟨?_, ?_, ?_, ?_⟩ <;>
        simp only [stepAbi, stepPlain, if_neg hd]
      · exact (h d).1
      · exact (h d).2.1
      · exact (h d).2.2.1
      · have := (h d).2.2.2
        simp only [List.length_cons] at this
        omega

/-- C7: when the callee-saved limit is not a binding constraint (at least
the number of input intervals, hence unreachable by any call-crossing list),
ABI-triggered spills are impossible and the ABI-aware simulation produces
exactly the same `spillCount` and `maxPressure` for every class as the plain
capacity-only simulation. -/
theorem claim_C7_unbounded_abi (caps : Nat → Nat) (limit : Nat) (callSites : List Nat)
    (intervals : List LiveInterval) (c : Nat)
    (h : intervals.length ≤ limit) :
    (simulateAbi caps limit callSites intervals c).spillCount =
      (simulatePlain caps intervals c).spillCount ∧
    (simulateAbi caps limit callSites intervals c).maxPressure =
      (simulatePlain caps intervals c).maxPressure := by
  have hlen : (sortIntervals intervals).length = intervals.length :=
    (sortIntervals_perm intervals).length_eq
  have h0 : ∀ d, ((fun _ : Nat => AbiClassState.init) d).active =
        ((fun _ : Nat => PlainClassState.init) d).active ∧
      ((fun _ : Nat => AbiClassState.init) d).maxPressure =
        ((fun _ : Nat => PlainClassState.init) d).maxPressure ∧
      ((fun _ : Nat => AbiClassState.init) d).spillCount =
        ((fun _ : Nat => PlainClassState.init) d).spillCount ∧
      ((fun _ : Nat => AbiClassState.init) d).callList.length +
        (sortIntervals intervals).length ≤ limit := by
    intro d
    refine ⟨rfl, rfl, rfl, ?_⟩
    simp [AbiClassState.init, hlen]
    omega
  have hh := foldAbiPlain_agree caps limit callSites (sortIntervals intervals)
    (fun _ => AbiClassState.init) (fun _ => PlainClassState.init) h0 c
  exact ⟨hh.2.2, hh.2.1⟩

/-- Witness for C7: two call-crossing intervals, limit 2 ≥ interval count —
the ABI-aware and plain simulations agree on spills and pressure. -/
theorem claim_C7_witness :
    (simulateAbi (fun _ => 1) 2 [5] [⟨0, 0, 0, 10⟩, ⟨1, 0, 1, 10⟩] 0).spillCount =
      (simulatePlain (fun _ => 1) [⟨0, 0, 0, 10⟩, ⟨1, 0, 1, 10⟩] 0).spillCount ∧
    (simulateAbi (fun _ => 1) 2 [5] [⟨0, 0, 0, 10⟩, ⟨1, 0, 1, 10⟩] 0).maxPressure =
      (simulatePlain (fun _ => 1) [⟨0, 0, 0, 10⟩, ⟨1, 0, 1, 10⟩] 0).maxPressure :=
  claim_C7_unbounded_abi (fun _ => 1) 2 [5] [⟨0, 0, 0, 10⟩, ⟨1, 0, 1, 10⟩] 0 (by decide)

/-! ## Claim C9 (amended) -/

theorem runPlain_capzero :
    ∀ (l : List LiveInterval) (s : PlainClassState), s.active = [] →
      (runPlain 0 s l).spillCount = s.spillCount + l.length ∧
        (runPlain 0 s l).active = [] := by
  intro l
  induction l with
  | nil =>
    intro s h
    exact ⟨by simp [runPlain], h⟩
  | cons cur t ih =>
    intro s h
    have hstep1 : (stepPlainClass 0 s cur).active = [] := by
      unfold stepPlainClass
      dsimp only
      rw [if_pos (by simp [admittedActive, expireActive, h])]
      simp [admittedActive, expireActive, h]
    have hstep2 : (stepPlainClass 0 s cur).spillCount = s.spillCount + 1 := by
      unfold stepPlainClass
      dsimp only
      rw [if_pos (by simp [admittedActive, expireActive, h])]
    have hr := ih (stepPlainClass 0 s cur) hstep1
    rw [runPlain_cons]
    refine ⟨?_, hr.2⟩
    rw [hr.1, hstep2]
    simp only [List.length_cons]
    omega

/-- C9 (amended): empty interval sets are valid inputs and produce an empty
report in both variants.  In the plain variants a class with zero capacity
is still simulated: every admitted interval of the class triggers a spill
and is immediately evicted (`spillCount` = number of intervals of the class,
and the active list ends empty), and a statistics record for the class is
produced whenever the class is touched.  In the ABI-aware variant, however,
classes with an empty allocatable set are filtered out during collection, so
no interval of such a class is admitted and no record is produced for it. -/
theorem claim_C9_amended (caps : Nat → Nat) (limit : Nat) (callSites : List Nat)
    (intervals : List LiveInterval) (c : Nat) (h : caps c = 0) :
    (simulatePlain caps intervals c).spillCount = (classIntervals intervals c).length ∧
    (simulatePlain caps intervals c).active = [] ∧
    (c ∈ touchedClasses intervals →
      (c, (simulatePlain caps intervals c).spillCount,
          (simulatePlain caps intervals c).maxPressure) ∈ reportPlain caps intervals) ∧
    (∀ r ∈ reportAbi caps limit callSites intervals, r.1 ≠ c) ∧
    reportPlain caps [] = [] ∧
    reportAbi caps limit callSites [] = [] := by
  have hproj := simulatePlain_proj caps intervals c
  have hlen : (classIntervals (sortIntervals intervals) c).length =
      (classIntervals intervals c).length :=
    (List.Perm.filter _ (sortIntervals_perm intervals)).length_eq
  have hrun := runPlain_capzero (classIntervals (sortIntervals intervals) c)
    PlainClassState.init rfl
  refine ⟨?_, ?_, ?_, ?_, rfl, rfl⟩
  · rw [hproj, h]
    rw [hrun.1]
    simp [PlainClassState.init, hlen]
  · rw [hproj, h]
    exact hrun.2
  · intro hc
    exact List.mem_map.mpr ⟨c, hc, rfl⟩
  · intro r hr
    rcases List.mem_map.mp hr with ⟨d, hd, rfl⟩
    intro hdc
    simp only at hdc
    subst hdc
    have : d ∈ (collectAbi caps intervals).map (fun iv => iv.rc) := by
      simpa [touchedClasses, List.mem_dedup] using hd
    rcases List.mem_map.mp this with ⟨iv, hiv, rfl⟩
    have := (List.mem_filter.mp hiv).2
    have hpos : 0 < caps iv.rc := of_decide_eq_true this
    omega

/-- Witness for C9 (amended): one interval against capacity 0 in the plain
variant yields exactly one spill. -/
theorem claim_C9_witness :
    (simulatePlain (fun _ => 0) [⟨0, 0, 0, 10⟩] 0).spillCount =
      (classIntervals [⟨0, 0, 0, 10⟩] 0).length :=
  (claim_C9_amended (fun _ => 0) 12 [] [⟨0, 0, 0, 10⟩] 0 rfl).1

/-! ## Claim C8 (amended) -/

theorem mem_insertReg (r x : Nat) (l : List Nat) :
    x ∈ insertReg r l ↔ x ∈ l ∨ x = r := by
  unfold insertReg
  split
  case isTrue h =>
    constructor
    · exact fun hx => Or.inl hx
    · rintro (hx | rfl)
      · exact hx
      · exact h
  case isFalse h =>
    simp [List.mem_append]

theorem nodup_insertReg (r : Nat) (l : List Nat) (h : l.Nodup) :
    (insertReg r l).Nodup := by
  unfold insertReg
  split
  case isTrue hr => exact h
  case isFalse hr =>
    simp [List.nodup_append, h, hr]

theorem recordFold_apply (classes : List (List Nat)) (r : Nat) :
    ∀ (idxs : List Nat) (acc : Nat → List Nat) (j : Nat), idxs.Nodup →
      (idxs.foldl (fun acc2 k =>
          if r ∈ classes.getD k [] then
            fun c => if c = k then insertReg r (acc2 k) else acc2 c
          else acc2) acc) j =
        if j ∈ idxs ∧ r ∈ classes.getD j [] then insertReg r (acc j) else acc j := by
  intro idxs
  induction idxs with
  | nil =>
    intro acc j _
    simp
  | cons k t ih =>
    intro acc j hnd
    rcases List.nodup_cons.mp hnd with ⟨hk, hnd2⟩
    simp only [List.foldl_cons]
    rw [ih _ j hnd2]
    by_cases hjk : j = k
    · subst hjk
      rw [if_neg (by rintro ⟨h1, _⟩; exact hk h1)]
      by_cases hrj : r ∈ classes.getD j []
      · simp only [if_pos hrj, if_pos rfl, List.mem_cons, true_or, true_and, if_true]
      · simp only [if_neg hrj, and_false, if_neg (fun h : _ ∧ _ => hrj h.2)]
    · by_cases hrk : r ∈ classes.getD k []
      · simp only [if_pos hrk]
        by_cases hjt : j ∈ t <;> by_cases hrj : r ∈ classes.getD j [] <;>
          simp [hjt, hrj, hjk, List.mem_cons]
      · simp only [if_neg hrk]
        by_cases hjt : j ∈ t <;> by_cases hrj : r ∈ classes.getD j [] <;>
          simp [hjt, hrj, hjk, List.mem_cons]

theorem recordFixedReg_apply (classes : List (List Nat)) (r : Nat)
    (acc : Nat → List Nat) (j : Nat) :
    recordFixedReg classes r acc j =
      if j < classes.length ∧ r ∈ classes.getD j [] then insertReg r (acc j)
      else acc j := by
  unfold recordFixedReg
  rw [recordFold_apply classes r (List.range classes.length) acc j
    (List.nodup_range _)]
  simp [List.mem_range]

theorem fixedUsage_fold (classes : List (List Nat)) :
    ∀ (ops : List Nat) (acc : Nat → List Nat) (j : Nat),
      (∀ x, x ∈ (ops.foldl
          (fun acc r => if r = 0 then acc else recordFixedReg classes r acc) acc) j ↔
        x ∈ acc j ∨ (x ∈ ops ∧ x ≠ 0 ∧ x ∈ classes.getD j [])) ∧
      ((acc j).Nodup → ((ops.foldl
          (fun acc r => if r = 0 then acc else recordFixedReg classes r acc) acc) j).Nodup) := by
  intro ops
  induction ops with
  | nil =>
    intro acc j
    constructor
    · intro x
      simp
    · exact fun h => h
  | cons r0 t ih =>
    intro acc j
    simp only [List.foldl_cons]
    obtain ⟨ihm, ihn⟩ := ih (if r0 = 0 then acc else recordFixedReg classes r0 acc) j
    constructor
    · intro x
      rw [ihm x]
      by_cases h0 : r0 = 0
      · subst h0
        simp only [if_pos rfl, List.mem_cons]
        constructor
        · rintro (hx | hx)
          · exact Or.inl hx
          · exact Or.inr ⟨Or.inr hx.1, hx.2⟩
        · rintro (hx | ⟨hx0 | hxt, hne, hcl⟩)
          · exact Or.inl hx
          · exact absurd hx0 hne
          · exact Or.inr ⟨hxt, hne, hcl⟩
      · simp only [if_neg h0, recordFixedReg_apply, List.mem_cons]
        by_cases hc : j < classes.length ∧ r0 ∈ classes.getD j []
        · simp only [if_pos hc, mem_insertReg]
          constructor
          · rintro ((hx | rfl) | hx)
            · exact Or.inl hx
            · exact Or.inr ⟨Or.inl rfl, h0, hc.2⟩
            · exact Or.inr ⟨Or.inr hx.1, hx.2⟩
          · rintro (hx | ⟨rfl | hxt, hne, hcl⟩)
            · exact Or.inl (Or.inl hx)
            · exact Or.inl (Or.inr rfl)
            · exact Or.inr ⟨hxt, hne, hcl⟩
        · simp only [if_neg hc]
          constructor
          · rintro (hx | hx)
            · exact Or.inl hx
            · exact Or.inr ⟨Or.inr hx.1, hx.2⟩
          · rintro (hx | ⟨rfl | hxt, hne, hcl⟩)
            · exact Or.inl hx
            · exfalso
              by_cases hlen : j < classes.length
              · exact hc ⟨hlen, hcl⟩
              · rw [List.getD_eq_default _ _ (Nat.le_of_not_lt hlen)] at hcl
                simp at hcl
            · exact Or.inr ⟨hxt, hne, hcl⟩
    · intro hnd
      refine ihn ?_
      by_cases h0 : r0 = 0
      · simpa [h0] using hnd
      · simp only [if_neg h0, recordFixedReg_apply]
        split
        · exact nodup_insertReg _ _ hnd
        · exact hnd

/-- C8 (amended): each observed physical-register usage is recorded for
EVERY class containing it — not only the most specific one (the
counterexample shows the difference) — with each register counted once per
class; a class's fixed count is the largest usage-set size among the class
itself and its proper superclasses; and the final reported pressure is
`maxPressure + fixedCount`, clamped to capacity exactly when no spill was
recorded (it is left unclamped whenever `spillCount > 0`). -/
theorem claim_C8_amended (caps : Nat → Nat) (classes : List (List Nat))
    (ops : List Nat) (st : Nat → PlainClassState) (i j : Nat) :
    (∀ x, x ∈ fixedUsage classes ops j ↔ x ∈ ops ∧ x ≠ 0 ∧ x ∈ classes.getD j []) ∧
    (fixedUsage classes ops j).Nodup ∧
    realisticRegs caps classes ops st i =
      (if (st i).spillCount = 0
       then min ((st i).maxPressure + fixedCount classes ops i) (caps i)
       else (st i).maxPressure + fixedCount classes ops i) := by
  obtain ⟨hm, hn⟩ := fixedUsage_fold classes ops (fun _ => []) j
  refine ⟨?_, ?_, ?_⟩
  · intro x
    unfold fixedUsage
    rw [hm x]
    simp
  · exact hn List.nodup_nil
  · unfold realisticRegs
    dsimp only
    by_cases hs : (st i).spillCount = 0
    · by_cases hgt : (st i).maxPressure + fixedCount classes ops i > caps i
      · rw [if_pos ⟨hgt, hs⟩, if_pos hs]
        omega
      · rw [if_neg (fun h => hgt h.1), if_pos hs]
        omega
    · rw [if_neg (fun h => hs h.2), if_neg hs]

/-! ## Lemmas about the true peak pressure -/

theorem le_natMax_of_mem : ∀ {l : List Nat} {a : Nat}, a ∈ l → a ≤ natMax l := by
  intro l
  induction l with
  | nil => intro a ha; cases ha
  | cons b t ih =>
    intro a ha
    rcases List.mem_cons.mp ha with rfl | h2
    · simp only [natMax, List.foldr_cons]
      omega
    · have := ih h2
      simp only [natMax, List.foldr_cons] at this ⊢
      omega

theorem natMax_le : ∀ {l : List Nat} {n : Nat}, (∀ a ∈ l, a ≤ n) → natMax l ≤ n := by
  intro l
  induction l with
  | nil => intro n _; exact Nat.zero_le n
  | cons b t ih =>
    intro n h
    have h1 := h b (List.mem_cons_self b t)
    have h2 := ih (fun a ha => h a (List.mem_cons_of_mem b ha))
    simp only [natMax, List.foldr_cons] at h2 ⊢
    omega

theorem aliveCount_perm {l l' : List LiveInterval} (h : l.Perm l') (p : Nat) :
    aliveCount l p = aliveCount l' p :=
  (h.filter _).length_eq

theorem truePeak_perm {l l' : List LiveInterval} (h : l.Perm l') :
    truePeak l = truePeak l' := by
  unfold truePeak
  have hpt : ∀ q : Nat, aliveCount l q = aliveCount l' q := fun q => aliveCount_perm h q
  apply Nat.le_antisymm
  · apply natMax_le
    intro a ha
    rcases List.mem_map.mp ha with ⟨iv, hiv, rfl⟩
    rw [hpt iv.beginIdx]
    exact le_natMax_of_mem (List.mem_map_of_mem _ (h.mem_iff.mp hiv))
  · apply natMax_le
    intro a ha
    rcases List.mem_map.mp ha with ⟨iv, hiv, rfl⟩
    rw [← hpt iv.beginIdx]
    exact le_natMax_of_mem (List.mem_map_of_mem _ (h.mem_iff.mpr hiv))

theorem natMax_mem : ∀ {l : List Nat}, l ≠ [] → natMax l ∈ l := by
  intro l
  induction l with
  | nil => intro h; exact absurd rfl h
  | cons b t ih =>
    intro _
    rcases t with _ | ⟨c, t2⟩
    · simp [natMax]
    · have hmem := ih (by simp)
      simp only [natMax, List.foldr_cons] at hmem ⊢
      rcases Nat.le_total b (max c (List.foldr max 0 t2)) with h | h
      · rw [Nat.max_eq_right h]
        exact List.mem_cons_of_mem b hmem
      · rw [Nat.max_eq_left h]
        exact List.mem_cons_self b _

/-- Every program point's alive count is bounded by `truePeak`: the count is
maximised at the begin index of one of the intervals alive there (the one
starting last). -/
theorem aliveCount_le_truePeak (l : List LiveInterval) (p : Nat) :
    aliveCount l p ≤ truePeak l := by
  by_cases hz : l.filter (fun iv => liveAt iv p) = []
  · simp [aliveCount, hz, truePeak]
  · have hmapne : (l.filter (fun iv => liveAt iv p)).map (fun iv => iv.beginIdx) ≠ [] := by
      simpa using hz
    have hmem := natMax_mem hmapne
    rcases List.mem_map.mp hmem with ⟨iv, hiv, hivb⟩
    have hiv_alive : liveAt iv p = true := (List.mem_filter.mp hiv).2
    have hiv_l : iv ∈ l := (List.mem_filter.mp hiv).1
    have hmax : ∀ x ∈ l.filter (fun iv => liveAt iv p), x.beginIdx ≤ iv.beginIdx := by
      intro x hx
      rw [hivb]
      exact le_natMax_of_mem (List.mem_map_of_mem _ hx)
    have hsub : ∀ x ∈ l.filter (fun iv => liveAt iv p), liveAt x iv.beginIdx = true := by
      intro x hx
      have hxa : liveAt x p = true := (List.mem_filter.mp hx).2
      have hxa1 : x.beginIdx ≤ p ∧ p < x.endIdx := by
        simpa [liveAt] using hxa
      have hia1 : iv.beginIdx ≤ p ∧ p < iv.endIdx := by
        simpa [liveAt] using hiv_alive
      have hxle := hmax x hx
      simp only [liveAt, Bool.and_eq_true, decide_eq_true_eq]
      omega
    have heq : l.filter (fun iv => liveAt iv p) =
        (l.filter (fun iv => liveAt iv p)).filter (fun x => liveAt x iv.beginIdx) :=
      (List.filter_eq_self.mpr hsub).symm
    have hlen : aliveCount l p ≤ aliveCount l iv.beginIdx := by
      unfold aliveCount
      calc (l.filter (fun iv => liveAt iv p)).length
          = ((l.filter (fun iv => liveAt iv p)).filter
              (fun x => liveAt x iv.beginIdx)).length := by rw [← heq]
        _ ≤ (l.filter (fun x => liveAt x iv.beginIdx)).length :=
            ((List.filter_sublist l).filter _).length_le
    exact Nat.le_trans hlen
      (le_natMax_of_mem (List.mem_map_of_mem _ hiv_l))

/-! ## Claim C1: upper bound of the recorded pressure -/

theorem runPlain_maxP_le_truePeak (cap : Nat) (L : List LiveInterval)
    (hsort : L.Pairwise (fun a b => a.beginIdx ≤ b.beginIdx))
    (hne : ∀ iv ∈ L, iv.beginIdx < iv.endIdx) :
    ∀ (suf pre : List LiveInterval) (s : PlainClassState),
      L = pre ++ suf → s.active.Sublist pre → s.maxPressure ≤ truePeak L →
      (runPlain cap s suf).maxPressure ≤ truePeak L := by
  intro suf
  induction suf with
  | nil => intro pre s _ _ hmax; exact hmax
  | cons cur rest ih =>
    intro pre s hdec hsub hmax
    have hcur_mem : cur ∈ L := by
      rw [hdec]
      exact List.mem_append.mpr (Or.inr (List.mem_cons_self _ _))
    have hpre_le : ∀ x ∈ pre, x.beginIdx ≤ cur.beginIdx := by
      have hps := hdec ▸ hsort
      have h2 := (List.pairwise_append.mp hps).2.2
      intro x hx
      exact h2 x hx cur (List.mem_cons_self _ _)
    have hexp_pre : (expireActive cur s.active).Sublist pre :=
      (List.filter_sublist s.active).trans hsub
    have hexp_sub : (expireActive cur s.active).Sublist
        (pre.filter (fun x => liveAt x cur.beginIdx)) := by
      have h2 : ∀ x ∈ expireActive cur s.active, liveAt x cur.beginIdx = true := by
        intro x hx
        have hxe := (List.mem_filter.mp hx).2
        have hxp : x ∈ pre := hexp_pre.subset hx
        have hxle := hpre_le x hxp
        simp only [decide_eq_true_eq] at hxe
        simp only [liveAt, Bool.and_eq_true, decide_eq_true_eq]
        omega
      have h3 := hexp_pre.filter (fun x => liveAt x cur.beginIdx)
      rwa [List.filter_eq_self.mpr h2] at h3
    have hpress : (admittedActive cur s.active).length ≤ aliveCount L cur.beginIdx := by
      have h1 : (admittedActive cur s.active).length =
          (expireActive cur s.active).length + 1 := by
        simp [admittedActive]
      have h2 := hexp_sub.length_le
      have h3 : liveAt cur cur.beginIdx = true := by
        have := hne cur hcur_mem
        simp only [liveAt, Bool.and_eq_true, decide_eq_true_eq]
        omega
      have h4 : aliveCount L cur.beginIdx =
          (pre.filter (fun x => liveAt x cur.beginIdx)).length +
            ((cur :: rest).filter (fun x => liveAt x cur.beginIdx)).length := by
        unfold aliveCount
        rw [hdec, List.filter_append, List.length_append]
      have h5 : ((cur :: rest).filter (fun x => liveAt x cur.beginIdx)).length =
          (rest.filter (fun x => liveAt x cur.beginIdx)).length + 1 := by
        simp [List.filter_cons, h3]
      omega
    have halive_le : aliveCount L cur.beginIdx ≤ truePeak L :=
      le_natMax_of_mem (List.mem_map_of_mem _ hcur_mem)
    have hstep_max : (stepPlainClass cap s cur).maxPressure ≤ truePeak L := by
      unfold stepPlainClass
      dsimp only
      split <;> dsimp only <;> split <;> omega
    have hstep_sub : (stepPlainClass cap s cur).active.Sublist (pre ++ [cur]) := by
      unfold stepPlainClass
      dsimp only
      split
      · dsimp only
        have hdl : (admittedActive cur s.active).dropLast = expireActive cur s.active := by
          simp [admittedActive]
        rw [hdl]
        exact hexp_pre.trans (List.sublist_append_left pre [cur])
      · dsimp only
        exact List.Sublist.append hexp_pre (List.Sublist.refl [cur])
    rw [runPlain_cons]
    exact ih (pre ++ [cur]) (stepPlainClass cap s cur)
      (by rw [hdec, List.append_assoc]; rfl) hstep_sub hstep_max

/-! ## Claim C1: the no-spill run tracks exactly the alive prefix intervals -/

theorem stepPlainClass_spillCount_eq (cap : Nat) (s : PlainClassState) (cur : LiveInterval) :
    (stepPlainClass cap s cur).spillCount =
      if (admittedActive cur s.active).length > cap then s.spillCount + 1
      else s.spillCount := by
  unfold stepPlainClass
  dsimp only
  split
  case isTrue h => rfl
  case isFalse h => rfl

theorem stepPlainClass_noSpill_active (cap : Nat) (s : PlainClassState)
    (cur : LiveInterval) (h : ¬((admittedActive cur s.active).length > cap)) :
    (stepPlainClass cap s cur).active = admittedActive cur s.active := by
  unfold stepPlainClass
  dsimp only
  rw [if_neg h]

theorem runPlain_append (cap : Nat) (s : PlainClassState) (l1 l2 : List LiveInterval) :
    runPlain cap s (l1 ++ l2) = runPlain cap (runPlain cap s l1) l2 :=
  List.foldl_append _ _ _ _

theorem runPlain_noSpill_activeInv (cap : Nat) :
    ∀ (suf pre : List LiveInterval) (s : PlainClassState),
      (pre ++ suf).Pairwise (fun a b => a.beginIdx ≤ b.beginIdx) →
      (∀ t : Nat, (∀ x ∈ pre, x.beginIdx ≤ t) →
        s.active.filter (fun a => decide (t < a.endIdx)) =
          pre.filter (fun a => decide (t < a.endIdx))) →
      (runPlain cap s suf).spillCount = s.spillCount →
      ∀ t : Nat, (∀ x ∈ pre ++ suf, x.beginIdx ≤ t) →
        (runPlain cap s suf).active.filter (fun a => decide (t < a.endIdx)) =
          (pre ++ suf).filter (fun a => decide (t < a.endIdx)) := by
  intro suf
  induction suf with
  | nil =>
    intro pre s hsort hinv hns t ht
    simpa using hinv t (by simpa using ht)
  | cons cur rest ih =>
    intro pre s hsort hinv hns t ht
    have hmono1 := stepPlainClass_spillCount_le cap s cur
    have hmono2 := runPlain_spillCount_le cap rest (stepPlainClass cap s cur)
    rw [runPlain_cons] at hns
    have hstep_ns : (stepPlainClass cap s cur).spillCount = s.spillCount := by omega
    have hnsp : ¬((admittedActive cur s.active).length > cap) := by
      intro hgt
      rw [stepPlainClass_spillCount_eq, if_pos hgt] at hstep_ns
      omega
    have hact : (stepPlainClass cap s cur).active = admittedActive cur s.active :=
      stepPlainClass_noSpill_active cap s cur hnsp
    have hinv' : ∀ u : Nat, (∀ x ∈ pre ++ [cur], x.beginIdx ≤ u) →
        (stepPlainClass cap s cur).active.filter (fun a => decide (u < a.endIdx)) =
          (pre ++ [cur]).filter (fun a => decide (u < a.endIdx)) := by
      intro u hu
      have hcuru : cur.beginIdx ≤ u :=
        hu cur (List.mem_append.mpr (Or.inr (List.mem_cons_self _ _)))
      have hpreu : ∀ x ∈ pre, x.beginIdx ≤ u :=
        fun x hx => hu x (List.mem_append.mpr (Or.inl hx))
      rw [hact]
      simp only [admittedActive, expireActive, List.filter_append]
      congr 1
      rw [List.filter_filter]
      have hcong : ∀ a ∈ s.active,
          (decide (u < a.endIdx) && decide (cur.beginIdx < a.endIdx)) =
            decide (u < a.endIdx) := by
        intro a _
        by_cases hu2 : u < a.endIdx
        · have hc2 : cur.beginIdx < a.endIdx := by omega
          simp [hu2, hc2]
        · simp [hu2]
      rw [List.filter_congr hcong]
      exact hinv u hpreu
    rw [runPlain_cons]
    have hres := ih (pre ++ [cur]) (stepPlainClass cap s cur)
      (by simpa [List.append_assoc] using hsort)
      hinv'
      (hns.trans hstep_ns.symm)
      t
      (by
        intro x hx
        refine ht x ?_
        simpa [List.append_assoc] using hx)
    simpa [List.append_assoc] using hres

/-! ## Claim C1: lower bound for spill-free runs -/

theorem exists_last_with_start :
    ∀ (l : List LiveInterval) (x : LiveInterval), x ∈ l →
      ∃ pre y rest, l = pre ++ y :: rest ∧ y.beginIdx = x.beginIdx ∧
        ∀ z ∈ rest, z.beginIdx ≠ x.beginIdx := by
  intro l
  induction l with
  | nil => intro x hx; cases hx
  | cons a t ih =>
    intro x hx
    by_cases hex : ∃ z ∈ t, z.beginIdx = x.beginIdx
    · obtain ⟨z, hz, hzb⟩ := hex
      obtain ⟨pre, y, rest, hdec, hyb, hrest⟩ := ih z hz
      refine ⟨a :: pre, y, rest, by rw [List.cons_append, ← hdec], hyb.trans hzb, ?_⟩
      intro w hw hwx
      exact hrest w hw (by rw [hwx, ← hzb])
    · push_neg at hex
      rcases List.mem_cons.mp hx with rfl | hxt
      · exact ⟨[], x, t, rfl, rfl, hex⟩
      · exact absurd rfl (hex x hxt)

theorem runPlain_noSpill_ge_truePeak (cap : Nat) (L : List LiveInterval)
    (hsort : L.Pairwise (fun a b => a.beginIdx ≤ b.beginIdx))
    (hne : ∀ iv ∈ L, iv.beginIdx < iv.endIdx)
    (hspill : (runPlain cap PlainClassState.init L).spillCount = 0) :
    truePeak L ≤ (runPlain cap PlainClassState.init L).maxPressure := by
  apply natMax_le
  intro a ha
  rcases List.mem_map.mp ha with ⟨x, hxL, rfl⟩
  obtain ⟨pre, y, rest, hdec, hyb, hrest⟩ := exists_last_with_start L x hxL
  have hrun : runPlain cap PlainClassState.init L =
      runPlain cap (runPlain cap PlainClassState.init pre) (y :: rest) := by
    rw [hdec, runPlain_append]
  have hyL : y ∈ L := by
    rw [hdec]
    exact List.mem_append.mpr (Or.inr (List.mem_cons_self _ _))
  have hpre0 : (runPlain cap PlainClassState.init pre).spillCount = 0 := by
    have h1 := runPlain_spillCount_le cap (y :: rest)
      (runPlain cap PlainClassState.init pre)
    rw [hrun] at hspill
    omega
  have hsort' : (pre ++ y :: rest).Pairwise (fun a b => a.beginIdx ≤ b.beginIdx) :=
    hdec ▸ hsort
  have hInv := runPlain_noSpill_activeInv cap pre [] PlainClassState.init
    (by simpa using (List.pairwise_append.mp hsort').1)
    (by intro t _; simp [PlainClassState.init])
    (by simpa [PlainClassState.init] using hpre0)
  have hpre_le : ∀ w ∈ pre, w.beginIdx ≤ y.beginIdx := by
    have h2 := (List.pairwise_append.mp hsort').2.2
    exact fun w hw => h2 w hw y (List.mem_cons_self _ _)
  have hactpre := hInv y.beginIdx (by simpa using hpre_le)
  simp only [List.nil_append] at hactpre
  have h1 : (admittedActive y (runPlain cap PlainClassState.init pre).active).length =
      ((runPlain cap PlainClassState.init pre).active.filter
        (fun a => decide (y.beginIdx < a.endIdx))).length + 1 := by
    simp [admittedActive, expireActive]
  have h4 : aliveCount L y.beginIdx =
      (pre.filter (fun v => liveAt v y.beginIdx)).length +
        ((y :: rest).filter (fun v => liveAt v y.beginIdx)).length := by
    unfold aliveCount
    rw [hdec, List.filter_append, List.length_append]
  have h5 : pre.filter (fun v => liveAt v y.beginIdx) =
      pre.filter (fun a => decide (y.beginIdx < a.endIdx)) := by
    apply List.filter_congr
    intro v hv
    have hdv : decide (v.beginIdx ≤ y.beginIdx) = true := decide_eq_true (hpre_le v hv)
    simp [liveAt, hdv]
  have hy_alive : liveAt y y.beginIdx = true := by
    have := hne y hyL
    simp only [liveAt, Bool.and_eq_true, decide_eq_true_eq]
    omega
  have hrest_le : ∀ z ∈ rest, y.beginIdx ≤ z.beginIdx := by
    have h2 := (List.pairwise_append.mp hsort').2.1
    exact fun z hz => (List.pairwise_cons.mp h2).1 z hz
  have h6 : (y :: rest).filter (fun v => liveAt v y.beginIdx) = [y] := by
    rw [List.filter_cons]
    simp only [hy_alive, if_true]
    have : rest.filter (fun v => liveAt v y.beginIdx) = [] := by
      rw [List.filter_eq_nil_iff]
      intro z hz
      have hzy := hrest_le z hz
      have hzx : z.beginIdx ≠ x.beginIdx := hrest z hz
      rw [hyb] at hzy
      simp only [liveAt, Bool.and_eq_true, decide_eq_true_eq, not_and]
      intro hle
      omega
    rw [this]
  have hpress : (admittedActive y (runPlain cap PlainClassState.init pre).active).length =
      aliveCount L y.beginIdx := by
    have hlen2 := congrArg List.length hactpre
    have hlen5 := congrArg List.length h5
    have hlen6 := congrArg List.length h6
    simp only [List.length_cons, List.length_nil] at hlen6
    omega
  have hfinal : aliveCount L y.beginIdx ≤
      (runPlain cap PlainClassState.init L).maxPressure := by
    rw [hrun, runPlain_cons]
    have hstep := stepPlainClass_maxPressure_ge cap
      (runPlain cap PlainClassState.init pre) y
    have hmono := runPlain_maxPressure_le cap rest
      (stepPlainClass cap (runPlain cap PlainClassState.init pre) y)
    omega
  rw [← hyb]
  exact hfinal

/-- C1 (amended): for inputs whose intervals are all non-empty
(`start < end`), the recorded `maxPressure` of a class never exceeds the
true maximum, over all program points, of the number of that class's
intervals alive there, and equals it whenever the run records no spill.
When spills occur the simulator may under-report the peak (see the
counterexample): an interval evicted at an earlier step is dropped from the
active list even though it is still alive at the peak point.  The third
conjunct justifies reading `truePeak` (a maximum over interval start
points) as the maximum over all program points. -/
theorem claim_C1_amended (caps : Nat → Nat) (intervals : List LiveInterval) (c : Nat)
    (hne : ∀ iv ∈ intervals, iv.beginIdx < iv.endIdx) :
    ((simulatePlain caps intervals c).spillCount = 0 →
      (simulatePlain caps intervals c).maxPressure =
        truePeak (classIntervals intervals c)) ∧
    (simulatePlain caps intervals c).maxPressure ≤
      truePeak (classIntervals intervals c) ∧
    ∀ p, aliveCount (classIntervals intervals c) p ≤
      truePeak (classIntervals intervals c) := by
  have hperm : (classIntervals (sortIntervals intervals) c).Perm
      (classIntervals intervals c) := by
    unfold classIntervals
    exact (sortIntervals_perm intervals).filter _
  have hsortL : (classIntervals (sortIntervals intervals) c).Pairwise
      (fun a b => a.beginIdx ≤ b.beginIdx) := by
    unfold classIntervals
    exact List.Pairwise.sublist (List.filter_sublist _) (sortIntervals_sorted intervals)
  have hneL : ∀ iv ∈ classIntervals (sortIntervals intervals) c,
      iv.beginIdx < iv.endIdx := by
    intro iv hiv
    refine hne iv ?_
    unfold classIntervals at hiv
    exact (sortIntervals_perm intervals).subset ((List.mem_filter.mp hiv).1)
  have htp : truePeak (classIntervals (sortIntervals intervals) c) =
      truePeak (classIntervals intervals c) := truePeak_perm hperm
  have hproj := simulatePlain_proj caps intervals c
  have hub := runPlain_maxP_le_truePeak (caps c)
    (classIntervals (sortIntervals intervals) c) hsortL hneL
    (classIntervals (sortIntervals intervals) c) [] PlainClassState.init
    rfl (List.nil_sublist _) (Nat.zero_le _)
  refine ⟨?_, ?_, ?_⟩
  · intro hsp
    rw [hproj] at hsp ⊢
    rw [← htp]
    exact Nat.le_antisymm hub
      (runPlain_noSpill_ge_truePeak (caps c) _ hsortL hneL hsp)
  · rw [hproj, ← htp]
    exact hub
  · intro p
    exact aliveCount_le_truePeak _ p

/-- Witness for C1 (amended): two overlapping intervals against capacity 2 —
no spill, and the recorded maximum pressure equals the true peak. -/
theorem claim_C1_witness :
    (simulatePlain (fun _ => 2) [⟨0, 0, 0, 10⟩, ⟨1, 0, 1, 10⟩] 0).maxPressure =
      truePeak (classIntervals [⟨0, 0, 0, 10⟩, ⟨1, 0, 1, 10⟩] 0) :=
  (claim_C1_amended (fun _ => 2) [⟨0, 0, 0, 10⟩, ⟨1, 0, 1, 10⟩] 0 (by decide)).1
    (by decide)
